import Mathlib

/-!
Verification of the QNN profiling-log extraction engine
(`qnn_log_parser.py`), shallowly embedded in Lean 4.

Byte buffers are modelled as `List Nat`, Python strings as Lean `String`
(whose underlying data is a `List Char`), Python dicts (which preserve
insertion order) as association lists, Python tuples as products, and the
fallible 4-byte probe as an `Option Nat`.  All definitions are direct
translations of the corresponding Python functions.
-/

namespace QNNLogParser

/-- Metric kind: the `'type'` field of a pattern entry (`'timing'` or
`'counter'` in the Python source). -/
inductive MType where
  | timing
  | counter
deriving DecidableEq

/-- Static information attached to a metric label in `self.metric_patterns`:
canonical key, unit and kind. -/
structure PatternInfo where
  key : String
  unit : String
  mtype : MType
deriving DecidableEq

/-- The static metric-definition table `self.metric_patterns` from
`QNNLogParser.__init__`, as an ordered association list (Python dicts
iterate in insertion order). -/
def metric_patterns : List (String × PatternInfo) :=
  [ ("QNN (deinit) time", ⟨"qnn_deinit_time_us", "microseconds", MType.timing⟩),
    ("Accelerator (deinit) time", ⟨"accelerator_deinit_time_us", "microseconds", MType.timing⟩),
    ("QNN Accelerator (deinit) time", ⟨"qnn_accelerator_deinit_time_us", "microseconds", MType.timing⟩),
    ("RPC (deinit) time", ⟨"rpc_deinit_time_us", "microseconds", MType.timing⟩),
    ("QNN (execute) time", ⟨"qnn_execute_time_us", "microseconds", MType.timing⟩),
    ("Accelerator (execute excluding wait) time", ⟨"accelerator_execute_excluding_wait_time_us", "microseconds", MType.timing⟩),
    ("Accelerator (execute) time", ⟨"accelerator_execute_time_us", "microseconds", MType.timing⟩),
    ("QNN accelerator (execute) time", ⟨"qnn_accelerator_execute_time_us", "microseconds", MType.timing⟩),
    ("RPC (execute) time", ⟨"rpc_execute_time_us", "microseconds", MType.timing⟩),
    ("QNN (finalize) time", ⟨"qnn_finalize_time_us", "microseconds", MType.timing⟩),
    ("Accelerator (finalize) time", ⟨"accelerator_finalize_time_us", "microseconds", MType.timing⟩),
    ("QNN accelerator (finalize) time", ⟨"qnn_accelerator_finalize_time_us", "microseconds", MType.timing⟩),
    ("RPC (finalize) time", ⟨"rpc_finalize_time_us", "microseconds", MType.timing⟩),
    ("duration", ⟨"duration_us", "microseconds", MType.timing⟩),
    ("numInferences", ⟨"num_inferences", "count", MType.counter⟩),
    ("Number of HVX threads used", ⟨"hvx_threads_used", "count", MType.counter⟩) ]

/-- Association-list access, modelling both `k in d` (via `isSome`) and
`d[k]` on a Python dict. -/
def assocGet {α : Type} : List (String × α) → String → Option α
  | [], _ => none
  | (k, v) :: rest, s => if k = s then some v else assocGet rest s

/-- Containment of `pat` as a prefix of `l` (helper for the Python
substring test `pat in s`). -/
def leadsChars : List Char → List Char → Bool
  | [], _ => true
  | _ :: _, [] => false
  | a :: pat, b :: l => a = b && leadsChars pat l

/-- Containment of `pat` as a contiguous sublist of `l` (helper for the
Python substring test `pat in s`). -/
def withinChars (pat : List Char) : List Char → Bool
  | [] => leadsChars pat []
  | b :: l => leadsChars pat (b :: l) || withinChars pat l

/-- The Python substring test `pat in s`. -/
def strContains (s pat : String) : Bool :=
  withinChars pat.data s.data

/-! ## LabelScanner: `extract_strings_and_positions` -/

/-- The running state of the scanning loop of
`extract_strings_and_positions`: the accumulated map
`strings_positions`, the run accumulator `current_string`, and the run
start `start_pos`. -/
structure ScanState where
  acc : List (String × List Nat)
  cur : String
  start : Nat

/-- Appending an occurrence offset `p` for label `s` to the map,
modelling `strings_positions.setdefault-like` insertion in the Python
source (create the list if the label is new, else append). -/
def addOccurrence : List (String × List Nat) → String → Nat → List (String × List Nat)
  | [], s, p => [(s, [p])]
  | (k, ps) :: rest, s, p =>
    if k = s then (k, ps ++ [p]) :: rest else (k, ps) :: addOccurrence rest s p

/-- Flushing the current run: record `current_string` at `start_pos` when
its length is at least 3 (both the mid-scan flush on a non-printable byte
and the final flush after the loop use this step). -/
def flushRun (st : ScanState) : List (String × List Nat) :=
  if 3 ≤ st.cur.length then addOccurrence st.acc st.cur st.start else st.acc

/-- One iteration of the scanning loop of `extract_strings_and_positions`
at index `i` on byte `b`. -/
def scanStep (i : Nat) (b : Nat) (st : ScanState) : ScanState :=
  if 32 ≤ b ∧ b ≤ 126 then
    if st.cur = "" then ⟨st.acc, st.cur.push (Char.ofNat b), i⟩
    else ⟨st.acc, st.cur.push (Char.ofNat b), st.start⟩
  else
    ⟨flushRun st, "", st.start⟩

/-- The scanning loop (`for i, byte in enumerate(data)`), with `i` the
index of the first byte of the remaining input. -/
def scanGo : List Nat → Nat → ScanState → ScanState
  | [], _, st => st
  | b :: rest, i, st => scanGo rest (i + 1) (scanStep i b st)

/-- `QNNLogParser.extract_strings_and_positions`: scan the buffer once and
return the label → occurrence-offsets map, flushing a final in-progress
run. -/
def extract_strings_and_positions (data : List Nat) : List (String × List Nat) :=
  flushRun (scanGo data 0 ⟨[], "", 0⟩)

/-! ## OffsetProbe: `extract_value_at_offset` -/

/-- Little-endian interpretation of a byte list, with the first byte least
significant (`struct.unpack('<I', ...)` on a 4-byte slice). -/
def leU32 (bs : List Nat) : Nat :=
  bs.foldr (fun b acc => b + 256 * acc) 0

/-- `QNNLogParser.extract_value_at_offset`: probe the 4-byte window at
`position + offset`, returning `none` when the window would leave the
buffer (Python returns `None`), else the little-endian 32-bit value of the
slice `data[value_pos : value_pos + 4]`. -/
def extract_value_at_offset (data : List Nat) (position : Nat) (offset : Int) : Option Nat :=
  if 0 ≤ (position : Int) + offset ∧ (position : Int) + offset ≤ (data.length : Int) - 4 then
    some (leU32 ((data.drop ((position : Int) + offset).toNat).take 4))
  else
    none

/-! ## MetricExtractor: `extract_metric_value` -/

/-- The fixed `search_offsets` list from `extract_metric_value`, in probe
order: common positive offsets, then common negative offsets, then
additional fallback offsets. -/
def search_offsets : List Int :=
  [ 16, 20, 28, 36, 40, 52, 56, 64,
    -12, -16, -20, -28, -36, -40, -52, -56, -64, -68, -72, -76, -80, -84, -88, -92, -96, -100,
    8, 12, 24, 32, 44, 48, 60, 68, 72, 76, 80, 84, 88, 92, 96, 100 ]

/-- Kind-specific validation from the inner loop of
`extract_metric_value`: a probed value is accepted unless it exceeds the
kind's threshold (`continue` in Python rejects it). -/
def acceptValue (ty : MType) (v : Nat) : Bool :=
  match ty with
  | MType.counter => !(decide (v > 1000000))
  | MType.timing => !(decide (v > 10000000))

/-- The inner loop of `extract_metric_value`: try each delta in order at a
fixed occurrence `pos`, returning the first probed value that passes
validation together with the delta used. -/
def searchOffsets (data : List Nat) (pos : Nat) (ty : MType) : List Int → Option (Nat × Int)
  | [] => none
  | d :: rest =>
    match extract_value_at_offset data pos d with
    | some v => if acceptValue ty v then some (v, d) else searchOffsets data pos ty rest
    | none => searchOffsets data pos ty rest

/-- `QNNLogParser.extract_metric_value`: nested search over the label's
occurrence offsets (outer) and `search_offsets` (inner), returning the
first accepted `(value, offset)` pair, or `(none, -1)` when the whole
search fails. -/
def extract_metric_value (data : List Nat) : List Nat → MType → Option Nat × Int
  | [], _ => (none, -1)
  | p :: rest, ty =>
    match searchOffsets data p ty search_offsets with
    | some (v, d) => (some v, d)
    | none => extract_metric_value data rest ty

/-! ## MetadataExtractor and report assembly: `parse_file` -/

/-- The version/graph-name loop of `parse_file`: iterate the label map in
order; a label containing `v2.35.0` overwrites `backend_version`,
otherwise (elif) a label containing one of the three `_quantized_*`
markers overwrites `graph_name`. -/
def extractVersionGraph (sp : List (String × List Nat)) : String × String :=
  sp.foldl
    (fun acc e =>
      if strContains e.1 "v2.35.0" then (e.1, acc.2)
      else if strContains e.1 "_quantized_htp" || strContains e.1 "_quantized_cpu"
          || strContains e.1 "_quantized_gpu" then (acc.1, e.1)
      else acc)
    ("", "")

/-- One entry of `results['raw_extraction_details']`.  The Python code
formats `string_position` and `extraction_position` as hex strings; here
they are kept numeric (`extraction_position` as an `Int`, since
`positions[0] + offset_used` may be negative). -/
structure Detail where
  pattern : String
  key : String
  value : Nat
  string_position : Nat
  offset_used : Int
  extraction_position : Int
  unit : String
  mtype : MType
deriving DecidableEq

/-- The metric-extraction loop of `parse_file` over a pattern table `pl`:
for each table entry whose label is present in the scanned map, run
`extract_metric_value`; on success append a detail record (built from the
label's FIRST occurrence, as the Python comment notes) and insert
`key → value` into the metrics map, on failure append the label to
`failed_extractions`.  Returns `(raw_extraction_details,
failed_extractions, metrics)`. -/
def parseMetrics (data : List Nat) (sp : List (String × List Nat)) :
    List (String × PatternInfo) → List Detail × List String × List (String × Nat)
  | [] => ([], [], [])
  | (label, info) :: pl =>
    let r := parseMetrics data sp pl
    match assocGet sp label with
    | none => r
    | some positions =>
      match extract_metric_value data positions info.mtype with
      | (some v, off) =>
        ({ pattern := label
           key := info.key
           value := v
           string_position := positions.headD 0
           offset_used := off
           extraction_position := (positions.headD 0 : Int) + off
           unit := info.unit
           mtype := info.mtype } :: r.1,
         r.2.1,
         (info.key, v) :: r.2.2)
      | (none, _) => (r.1, label :: r.2.1, r.2.2)

/-- The pure content of the `results` dictionary produced by
`QNNLogParser.parse_file` (the file path is external I/O and omitted). -/
structure Report where
  size_bytes : Nat
  backend_version : String
  graph_name : String
  strings_found : Nat
  metrics_extracted : Nat
  failed_extractions : List String
  metrics : List (String × Nat)
  raw_extraction_details : List Detail
deriving DecidableEq

/-- `QNNLogParser.parse_file` on in-memory bytes: scan, extract metadata,
run the metric-extraction loop over the static table, and assemble the
report. -/
def parse_file_core (data : List Nat) : Report :=
  let sp := extract_strings_and_positions data
  let vg := extractVersionGraph sp
  let r := parseMetrics data sp metric_patterns
  { size_bytes := data.length
    backend_version := vg.1
    graph_name := vg.2
    strings_found := sp.length
    metrics_extracted := r.1.length
    failed_extractions := r.2.1
    metrics := r.2.2
    raw_extraction_details := r.1 }

/-! ## DerivedMetricCalculator: `calculate_derived_metrics` -/

/-- A derived-metric value: Python ints stay integral, Python float
divisions are modelled as exact rationals. -/
inductive DVal where
  | int (n : Nat)
  | rat (q : ℚ)
deriving DecidableEq

/-- The primary execution time choice of `calculate_derived_metrics`:
`qnn_execute_time_us` if present, else `accelerator_execute_time_us` if
present, else absent.  (In the Python code this is exactly the condition
under which `'primary_execution_time_us' in derived` holds later.) -/
def primaryOf (metrics : List (String × Nat)) : Option Nat :=
  match assocGet metrics "qnn_execute_time_us" with
  | some v => some v
  | none => assocGet metrics "accelerator_execute_time_us"

/-- The component-timing bucketing loop of `calculate_derived_metrics`:
`(execution_times, finalize_times, deinit_times)`, filled in iteration
order by the if/elif substring tests on each key. -/
def buckets : List (String × Nat) → List Nat × List Nat × List Nat
  | [] => ([], [], [])
  | (k, v) :: rest =>
    let r := buckets rest
    if strContains k "execute" && strContains k "time_us" then (v :: r.1, r.2.1, r.2.2)
    else if strContains k "finalize" && strContains k "time_us" then (r.1, v :: r.2.1, r.2.2)
    else if strContains k "deinit" && strContains k "time_us" then (r.1, r.2.1, v :: r.2.2)
    else r

/-- `QNNLogParser.calculate_derived_metrics`: the derived-metric map, in
the insertion order of the Python `derived` dict. -/
def calculate_derived_metrics (metrics : List (String × Nat)) : List (String × DVal) :=
  let d1 : List (String × DVal) :=
    match primaryOf metrics with
    | some v => [("primary_execution_time_us", DVal.int v)]
    | none => []
  let d2 : List (String × DVal) :=
    match primaryOf metrics, assocGet metrics "num_inferences" with
    | some et, some ni =>
      if 0 < et ∧ 0 < ni then
        [("throughput_inferences_per_second", DVal.rat ((1000000 * ni : ℚ) / (et : ℚ))),
         ("avg_time_per_inference_us", DVal.rat ((et : ℚ) / (ni : ℚ)))]
      else []
    | _, _ => []
  let b := buckets metrics
  let d3 : List (String × DVal) :=
    if b.1 = [] then []
    else
      [("total_execution_time_us", DVal.int b.1.sum),
       ("avg_execution_time_us", DVal.rat ((b.1.sum : ℚ) / (b.1.length : ℚ)))]
  let d4 : List (String × DVal) :=
    if b.2.1 = [] then []
    else
      [("total_finalize_time_us", DVal.int b.2.1.sum),
       ("avg_finalize_time_us", DVal.rat ((b.2.1.sum : ℚ) / (b.2.1.length : ℚ)))]
  let d5 : List (String × DVal) :=
    if b.2.2 = [] then []
    else
      [("total_deinit_time_us", DVal.int b.2.2.sum),
       ("avg_deinit_time_us", DVal.rat ((b.2.2.sum : ℚ) / (b.2.2.length : ℚ)))]
  let d6 : List (String × DVal) :=
    match assocGet metrics "accelerator_execute_time_us", assocGet metrics "qnn_execute_time_us" with
    | some a, some q =>
      if 0 < q then [("accelerator_efficiency_percent", DVal.rat (((a : ℚ) / (q : ℚ)) * 100))]
      else []
    | _, _ => []
  let d7 : List (String × DVal) :=
    match assocGet metrics "rpc_execute_time_us", assocGet metrics "accelerator_execute_time_us" with
    | some r, some a =>
      if 0 < a then [("rpc_overhead_ratio", DVal.rat ((r : ℚ) / (a : ℚ)))]
      else []
    | _, _ => []
  d1 ++ d2 ++ d3 ++ d4 ++ d5 ++ d6 ++ d7

/-! ## Concrete buffers used as test vectors -/

/-- ASCII bytes of the label `"duration"`. -/
def durBytes : List Nat := [100, 117, 114, 97, 116, 105, 111, 110]

/-- A 200-byte buffer containing the label `"duration"` at offsets 10 and
160, non-printable `0xFF` filler everywhere else except the little-endian
encoding of `500` at offsets 176–179 (reachable only from the occurrence
at 160, via delta `+16`). -/
def bufTwo : List Nat :=
  List.replicate 10 255 ++ durBytes ++ List.replicate 142 255 ++ durBytes
    ++ List.replicate 8 255 ++ [244, 1, 0, 0] ++ List.replicate 20 255

/-- A 140-byte buffer containing the label `"duration"` at offsets 1 and
120, with the little-endian encoding of `500` at offsets 104–107: the
only accepted probe is occurrence 120 with delta `-16`. -/
def bufNeg : List Nat :=
  [255] ++ durBytes ++ List.replicate 95 255 ++ [244, 1, 0, 0]
    ++ List.replicate 12 255 ++ durBytes ++ List.replicate 12 255

/-- A 20-byte buffer whose only content is the little-endian encoding of
`500` at offsets 16–19. -/
def bufOne : List Nat := List.replicate 16 255 ++ [244, 1, 0, 0]

/-! ## General helper lemmas -/

/-- Extracting one more element of a take, given the element at the split
point. -/
theorem take_succ_eq {α : Type} : ∀ (m : List α) (k : Nat) (b : α) (rest : List α),
    m.drop k = b :: rest → m.take (k + 1) = m.take k ++ [b] := by
  intro m k
  induction k generalizing m with
  | zero =>
    intro b rest h
    simp only [List.drop_zero] at h
    subst h
    rfl
  | succ n ih =>
    intro b rest h
    cases m with
    | nil => simp at h
    | cons a t =>
      simp only [List.drop_succ_cons] at h
      simp only [List.take_succ_cons, ih t b rest h]
      rfl

/-- A length-4 slice written out elementwise with `List.getD`. -/
theorem slice4 : ∀ (l : List Nat) (p : Nat), p + 4 ≤ l.length →
    (l.drop p).take 4 = [l.getD p 0, l.getD (p + 1) 0, l.getD (p + 2) 0, l.getD (p + 3) 0] := by
  intro l p
  induction p generalizing l with
  | zero =>
    intro h
    match l, h with
    | a :: b :: c :: d :: t, _ => simp [List.getD]
  | succ n ih =>
    intro h
    match l, h with
    | a :: t, h =>
      have ht : n + 4 ≤ t.length := by
        simp only [List.length_cons] at h
        omega
      have := ih t ht
      simp only [List.drop_succ_cons]
      rw [this]
      simp [List.getD_cons_succ]

set_option maxRecDepth 100000

/-! ## Claim C2: the delta sequence -/

/-- Claim C2 counterexample: the delta sequence does not have 36 elements
(it has 42), so the claim "a fixed, ordered list of 36 signed deltas equal
to the literal sequence" is false as stated. -/
theorem c2_counterexample : ¬ (search_offsets.length = 36) := by decide

/-- Claim C2 (amended): the delta sequence used by every metric's offset
search is a fixed ordered list of 42 signed deltas, equal
element-for-element and in probe order to the literal sequence from the
specification. -/
theorem c2_amended_delta_sequence :
    search_offsets =
      [ (16 : Int), 20, 28, 36, 40, 52, 56, 64,
        -12, -16, -20, -28, -36, -40, -52, -56, -64, -68, -72, -76, -80, -84, -88, -92, -96, -100,
        8, 12, 24, 32, 44, 48, 60, 68, 72, 76, 80, 84, 88, 92, 96, 100 ]
    ∧ search_offsets.length = 42 := by
  constructor
  · rfl
  · decide

/-! ## Claim C3: validation thresholds -/

/-- Claim C3: counter values are accepted iff they are at most 1,000,000
and timing values iff at most 10,000,000 (zero included), and a probed
value that fails validation makes the inner search continue with the next
candidate delta. -/
theorem c3_validation_boundaries :
    (∀ v : Nat, acceptValue MType.counter v = true ↔ v ≤ 1000000)
    ∧ (∀ v : Nat, acceptValue MType.timing v = true ↔ v ≤ 10000000)
    ∧ (∀ (data : List Nat) (pos : Nat) (ty : MType) (d : Int) (rest : List Int) (v : Nat),
        extract_value_at_offset data pos d = some v → acceptValue ty v = false →
        searchOffsets data pos ty (d :: rest) = searchOffsets data pos ty rest)
    ∧ acceptValue MType.counter 1000000 = true
    ∧ acceptValue MType.counter 1000001 = false
    ∧ acceptValue MType.timing 10000000 = true
    ∧ acceptValue MType.timing 10000001 = false := by
  refine ⟨?_, ?_, ?_, by decide, by decide, by decide, by decide⟩
  · intro v
    simp [acceptValue]
  · intro v
    simp [acceptValue]
  · intro data pos ty d rest v hv hrej
    simp [searchOffsets, hv, hrej]

/-- Witness for C3 at a concrete input: the 4 bytes encoding 1,000,001
probe successfully but fail counter validation, so the search skips to the
remaining deltas. -/
theorem c3_validation_boundaries_witness :
    extract_value_at_offset [65, 66, 15, 0] 0 0 = some 1000001
    ∧ acceptValue MType.counter 1000001 = false
    ∧ searchOffsets [65, 66, 15, 0] 0 MType.counter (0 :: [5])
        = searchOffsets [65, 66, 15, 0] 0 MType.counter [5] :=
  ⟨by decide, by decide,
    c3_validation_boundaries.2.2.1 [65, 66, 15, 0] 0 MType.counter 0 [5] 1000001
      (by decide) (by decide)⟩

/-! ## Claim C5: the bounds-checked probe -/

/-- Claim C5: the probe returns `none` exactly when `base + delta` falls
outside `[0, len - 4]` (in particular for every buffer shorter than 4
bytes), and otherwise returns the unsigned 32-bit little-endian integer
encoded by the 4 bytes starting at `base + delta`, all of which lie inside
the buffer.  The function is a pure total Lean function, so it raises no
exception and mutates nothing. -/
theorem c5_probe_bounds :
    ∀ (data : List Nat) (base : Nat) (delta : Int),
      (extract_value_at_offset data base delta = none ↔
        ((base : Int) + delta < 0 ∨ (base : Int) + delta > (data.length : Int) - 4))
      ∧ (∀ v : Nat, extract_value_at_offset data base delta = some v →
          ∃ p : Nat, (base : Int) + delta = (p : Int) ∧ p + 4 ≤ data.length ∧
            v = data.getD p 0 + 256 * data.getD (p + 1) 0 + 65536 * data.getD (p + 2) 0
                + 16777216 * data.getD (p + 3) 0) := by
  intro data base delta
  constructor
  · unfold extract_value_at_offset
    split
    case isTrue h =>
      simp only [reduceCtorEq, false_iff]
      omega
    case isFalse h =>
      simp only [true_iff]
      omega
  · intro v hv
    unfold extract_value_at_offset at hv
    split at hv
    case isFalse h => simp at hv
    case isTrue h =>
      obtain ⟨h0, h4⟩ := h
      refine ⟨((base : Int) + delta).toNat, by omega, by omega, ?_⟩
      have hle : ((base : Int) + delta).toNat + 4 ≤ data.length := by omega
      simp only [Option.some.injEq] at hv
      rw [← hv, slice4 data (((base : Int) + delta).toNat) hle]
      simp [leU32]
      ring

/-- Witness for C5 at a concrete input: probing `[1, 2, 3, 4]` at
`base = 0`, `delta = 0` returns the little-endian value 67305985 read from
the four in-bounds bytes. -/
theorem c5_probe_bounds_witness :
    extract_value_at_offset [1, 2, 3, 4] 0 0 = some 67305985
    ∧ ∃ p : Nat, ((0 : Nat) : Int) + (0 : Int) = (p : Int)
        ∧ p + 4 ≤ ([1, 2, 3, 4] : List Nat).length
        ∧ 67305985 = ([1, 2, 3, 4] : List Nat).getD p 0
            + 256 * ([1, 2, 3, 4] : List Nat).getD (p + 1) 0
            + 65536 * ([1, 2, 3, 4] : List Nat).getD (p + 2) 0
            + 16777216 * ([1, 2, 3, 4] : List Nat).getD (p + 3) 0 :=
  ⟨by decide, (c5_probe_bounds [1, 2, 3, 4] 0 0).2 67305985 (by decide)⟩

/-! ## Claim C7: metadata extraction -/

/-- The last label in iteration order satisfying `p`, with `""` as the
initial value of the corresponding report field. -/
def lastSuchLabel (p : String → Bool) (sp : List (String × List Nat)) : String :=
  sp.foldl (fun acc e => if p e.1 then e.1 else acc) ""

/-- Claim C7 counterexample: a label containing `_quantized_htp` is NOT
recorded as `graph_name` when it also contains `v2.35.0`, because the
version test and the graph-name test are chained by `elif`, not
independent. -/
theorem c7_counterexample :
    strContains "v2.35.0_quantized_htp" "_quantized_htp" = true
    ∧ (extractVersionGraph [("v2.35.0_quantized_htp", [0])]).2 = "" := by
  constructor
  · decide
  · decide

/-- Claim C7 (amended): `backend_version` is the last label in iteration
order containing `v2.35.0`, and `graph_name` is the last label that does
NOT contain `v2.35.0` but contains one of the three `_quantized_*`
substrings (the `elif` makes the graph-name test reachable only for labels
failing the version test); in both cases the last qualifying label in
iteration order wins. -/
theorem c7_amended_metadata :
    ∀ sp : List (String × List Nat),
      extractVersionGraph sp =
        (lastSuchLabel (fun s => strContains s "v2.35.0") sp,
         lastSuchLabel
           (fun s => !strContains s "v2.35.0"
             && (strContains s "_quantized_htp" || strContains s "_quantized_cpu"
                 || strContains s "_quantized_gpu")) sp) := by
  have general : ∀ (sp : List (String × List Nat)) (a b : String),
      sp.foldl
        (fun acc e =>
          if strContains e.1 "v2.35.0" then (e.1, acc.2)
          else if strContains e.1 "_quantized_htp" || strContains e.1 "_quantized_cpu"
              || strContains e.1 "_quantized_gpu" then (acc.1, e.1)
          else acc)
        (a, b)
      = (sp.foldl (fun acc e => if strContains e.1 "v2.35.0" then e.1 else acc) a,
         sp.foldl
           (fun acc e =>
             if !strContains e.1 "v2.35.0"
                 && (strContains e.1 "_quantized_htp" || strContains e.1 "_quantized_cpu"
                     || strContains e.1 "_quantized_gpu") then e.1 else acc) b) := by
    intro sp
    induction sp with
    | nil => intro a b; rfl
    | cons e sp ih =>
      intro a b
      simp only [List.foldl_cons]
      by_cases hv : strContains e.1 "v2.35.0" = true
      · simp only [hv, if_true, Bool.not_true, Bool.false_and, Bool.false_eq_true, if_false]
        exact ih e.1 b
      · simp only [Bool.not_eq_true] at hv
        by_cases hg : (strContains e.1 "_quantized_htp" || strContains e.1 "_quantized_cpu"
            || strContains e.1 "_quantized_gpu") = true
        · simp only [hv, Bool.false_eq_true, if_false, hg, if_true, Bool.not_false, Bool.true_and]
          exact ih a e.1
        · simp only [hv, Bool.false_eq_true, if_false, hg, Bool.not_false, Bool.true_and]
          exact ih a b
  intro sp
  exact general sp "" ""

/-! ## Claim C1: nested first-accept search order -/

/-- Decides whether the `(occurrence, delta)` pair `pd` probes a value
that passes the kind-specific validation. -/
def hitB (data : List Nat) (ty : MType) (pd : Nat × Int) : Bool :=
  match extract_value_at_offset data pd.1 pd.2 with
  | some v => acceptValue ty v
  | none => false

/-- The inner delta loop is the first hit of `hitB` along the delta list
paired with the fixed occurrence. -/
theorem searchOffsets_eq_find (data : List Nat) (p : Nat) (ty : MType) :
    ∀ ds : List Int,
      searchOffsets data p ty ds =
        match (ds.map (fun d => (p, d))).find? (hitB data ty) with
        | some pd =>
          match extract_value_at_offset data pd.1 pd.2 with
          | some v => some (v, pd.2)
          | none => none
        | none => none := by
  intro ds
  induction ds with
  | nil => rfl
  | cons d rest ih =>
    cases hv : extract_value_at_offset data p d with
    | none =>
      have hh : hitB data ty (p, d) = false := by simp [hitB, hv]
      simp only [searchOffsets, hv, List.map_cons, List.find?_cons, hh]
      exact ih
    | some v =>
      cases hacc : acceptValue ty v with
      | false =>
        have hh : hitB data ty (p, d) = false := by simp [hitB, hv, hacc]
        simp only [searchOffsets, hv, hacc, Bool.false_eq_true, if_false, List.map_cons,
          List.find?_cons, hh]
        exact ih
      | true =>
        have hh : hitB data ty (p, d) = true := by simp [hitB, hv, hacc]
        simp only [searchOffsets, hv, hacc, if_true, List.map_cons, List.find?_cons, hh, hv]

/-- The inner delta loop fails exactly when no pair along the delta list
hits. -/
theorem searchOffsets_none_iff (data : List Nat) (p : Nat) (ty : MType) (ds : List Int) :
    searchOffsets data p ty ds = none ↔
      (ds.map (fun d => (p, d))).find? (hitB data ty) = none := by
  rw [searchOffsets_eq_find]
  cases hfind : (ds.map (fun d => (p, d))).find? (hitB data ty) with
  | none => simp
  | some pd =>
    have hpd := List.find?_some hfind
    cases hv : extract_value_at_offset data pd.1 pd.2 with
    | none => simp [hitB, hv] at hpd
    | some v => simp [hv]

/-- Claim C1: the extraction search probes occurrence offsets in scan
order (outer) and the fixed delta sequence in listed order (inner), and
returns the probed value of the FIRST `(occurrence, delta)` pair, in this
nested order, that passes validation — formalized by equality with
`List.find?` over the flattened candidate list.  The concrete conjuncts
instantiate the two-occurrence scenario: in `bufTwo` the label occurs at
10 and 160, every delta fails at occurrence 10, and the accepted value 500
is the one read near the occurrence at 160 (delta 16). -/
theorem c1_nested_first_accept :
    (∀ (data : List Nat) (positions : List Nat) (ty : MType),
      extract_metric_value data positions ty =
        match (positions.flatMap (fun p => search_offsets.map (fun d => (p, d)))).find?
            (hitB data ty) with
        | some pd => (extract_value_at_offset data pd.1 pd.2, pd.2)
        | none => (none, -1))
    ∧ extract_metric_value bufTwo [10, 160] MType.timing = (some 500, 16)
    ∧ extract_value_at_offset bufTwo 160 16 = some 500
    ∧ extract_metric_value bufTwo [10] MType.timing = (none, -1) := by
  refine ⟨?_, by decide, by decide, by decide⟩
  intro data positions ty
  induction positions with
  | nil => rfl
  | cons p rest ih =>
    simp only [List.flatMap_cons, List.find?_append]
    cases hs : searchOffsets data p ty search_offsets with
    | none =>
      have hfind : (search_offsets.map (fun d => (p, d))).find? (hitB data ty) = none :=
        (searchOffsets_none_iff data p ty search_offsets).mp hs
      rw [hfind]
      simp only [extract_metric_value, hs, Option.none_or]
      exact ih
    | some vd =>
      obtain ⟨v, d⟩ := vd
      have hs2 := hs
      rw [searchOffsets_eq_find] at hs2
      cases hfind : (search_offsets.map (fun d => (p, d))).find? (hitB data ty) with
      | none => rw [hfind] at hs2; simp at hs2
      | some pd =>
        rw [hfind] at hs2
        cases hv : extract_value_at_offset data pd.1 pd.2 with
        | none => simp [hv] at hs2
        | some v2 =>
          simp only [hv, Option.some.injEq, Prod.mk.injEq] at hs2
          obtain ⟨hv2, hd⟩ := hs2
          simp only [extract_metric_value, hs, hfind, Option.or_some]
          rw [hv, hv2, hd]

/-! ## Claim C10: report ordering follows the static table -/

/-- Whether a label is present in the scanned map (`pattern_name in
strings_positions`). -/
def foundB (sp : List (String × List Nat)) (l : String) : Bool :=
  (assocGet sp l).isSome

/-- Whether a table entry is present in the scanned map and its nested
search accepts some value. -/
def succB (data : List Nat) (sp : List (String × List Nat)) (e : String × PatternInfo) : Bool :=
  match assocGet sp e.1 with
  | some ps => (extract_metric_value data ps e.2.mtype).1.isSome
  | none => false

/-- The metric-extraction loop visits the pattern table in its fixed
order, so the detail list, the failed list and the metric-map insertion
order are the table order restricted by success/failure. -/
theorem parseMetrics_orders (data : List Nat) (sp : List (String × List Nat)) :
    ∀ pl : List (String × PatternInfo),
      ((parseMetrics data sp pl).1.map (fun d => d.pattern)
          = (pl.filter (succB data sp)).map (fun e => e.1))
      ∧ ((parseMetrics data sp pl).2.1
          = (pl.filter (fun e => foundB sp e.1 && !succB data sp e)).map (fun e => e.1))
      ∧ ((parseMetrics data sp pl).2.2.map (fun kv => kv.1)
          = (pl.filter (succB data sp)).map (fun e => e.2.key)) := by
  intro pl
  induction pl with
  | nil => exact ⟨rfl, rfl, rfl⟩
  | cons e pl ih =>
    obtain ⟨label, info⟩ := e
    obtain ⟨ih1, ih2, ih3⟩ := ih
    cases hl : assocGet sp label with
    | none =>
      have hf : foundB sp label = false := by simp [foundB, hl]
      have hsu : succB data sp (label, info) = false := by simp [succB, hl]
      simp only [parseMetrics, hl, List.filter_cons, hsu, Bool.false_eq_true, if_false, hf,
        Bool.false_and]
      exact ⟨ih1, ih2, ih3⟩
    | some ps =>
      have hf : foundB sp label = true := by simp [foundB, hl]
      cases hv : extract_metric_value data ps info.mtype with
      | mk ov off =>
        cases ov with
        | none =>
          have hsu : succB data sp (label, info) = false := by simp [succB, hl, hv]
          simp only [parseMetrics, hl, hv, List.filter_cons, hsu, Bool.false_eq_true, if_false,
            hf, Bool.not_false, Bool.and_self, if_true, List.map_cons]
          exact ⟨ih1, by rw [ih2], ih3⟩
        | some v =>
          have hsu : succB data sp (label, info) = true := by simp [succB, hl, hv]
          simp only [parseMetrics, hl, hv, List.filter_cons, hsu, if_true, hf, Bool.not_true,
            Bool.and_false, Bool.false_eq_true, if_false, List.map_cons]
          exact ⟨by rw [ih1], ih2, by rw [ih3]⟩

/-- Claim C10: in every parsed report, the raw-extraction-detail list, the
failed-extractions list, and the insertion order of the primitive metric
map all follow the fixed order of the static metric definition table,
restricted respectively to table entries whose search succeeded and to
entries that were found but yielded no accepted value; the ordering
depends on the buffer only through those success/failure outcomes, never
on where the labels occur. -/
theorem c10_report_order (data : List Nat) :
    ((parse_file_core data).raw_extraction_details.map (fun d => d.pattern)
        = (metric_patterns.filter (succB data (extract_strings_and_positions data))).map
            (fun e => e.1))
    ∧ ((parse_file_core data).failed_extractions
        = (metric_patterns.filter
            (fun e => foundB (extract_strings_and_positions data) e.1
              && !succB data (extract_strings_and_positions data) e)).map (fun e => e.1))
    ∧ ((parse_file_core data).metrics.map (fun kv => kv.1)
        = (metric_patterns.filter (succB data (extract_strings_and_positions data))).map
            (fun e => e.2.key)) :=
  parseMetrics_orders data (extract_strings_and_positions data) metric_patterns

/-! ## Claim C6: the recorded extraction positions -/

/-- Every recorded detail satisfies: the resolved offset is the recorded
occurrence plus the recorded delta, the recorded occurrence is the FIRST
occurrence of the label in the scanned map, and the recorded value/delta
are the result of the nested search over all occurrences. -/
theorem parseMetrics_detail_inv (data : List Nat) (sp : List (String × List Nat)) :
    ∀ (pl : List (String × PatternInfo)) (d : Detail), d ∈ (parseMetrics data sp pl).1 →
      d.extraction_position = (d.string_position : Int) + d.offset_used
      ∧ ∃ ps, assocGet sp d.pattern = some ps
          ∧ d.string_position = ps.headD 0
          ∧ extract_metric_value data ps d.mtype = (some d.value, d.offset_used) := by
  intro pl
  induction pl with
  | nil => intro d hd; simp [parseMetrics] at hd
  | cons e pl ih =>
    obtain ⟨label, info⟩ := e
    intro d hd
    cases hl : assocGet sp label with
    | none =>
      simp only [parseMetrics, hl] at hd
      exact ih d hd
    | some ps =>
      cases hv : extract_metric_value data ps info.mtype with
      | mk ov off =>
        cases ov with
        | none =>
          simp only [parseMetrics, hl, hv] at hd
          exact ih d hd
        | some v =>
          simp only [parseMetrics, hl, hv, List.mem_cons] at hd
          cases hd with
          | inr hd => exact ih d hd
          | inl hd =>
            subst hd
            exact ⟨rfl, ps, hl, rfl, hv⟩

/-- Claim C6 counterexample: in `bufTwo` the accepted value 500 was read
at occurrence 160 (delta 16), but the report records occurrence 10 with
resolved offset 26, where the probed value is 4294967295, not 500 — so
the recorded occurrence offset is NOT the occurrence from which the
accepted value was read.  In `bufNeg` the recorded resolved offset is
-15, which violates `0 ≤ resolved_offset ≤ len(RawDocument) - 4`. -/
theorem c6_counterexample :
    (parse_file_core bufTwo).raw_extraction_details.map
        (fun d => (d.pattern, d.value, d.string_position, d.offset_used, d.extraction_position))
      = [("duration", 500, 10, 16, 26)]
    ∧ extract_value_at_offset bufTwo 10 16 = some 4294967295
    ∧ (parse_file_core bufNeg).raw_extraction_details.map (fun d => d.extraction_position)
      = [-15]
    ∧ (parse_file_core bufNeg).size_bytes = 140 := by
  refine ⟨by decide, by decide, by decide, by decide⟩

/-- Claim C6 (amended): for every successful extraction recorded in the
report, the recorded resolved offset equals the recorded occurrence
offset plus the recorded delta, where the recorded occurrence offset is
always the label's FIRST scanned occurrence (which need not be the
occurrence the accepted value was read from), and the recorded value and
delta are the result of the nested search; the resolved offset may fall
outside `[0, len - 4]`. -/
theorem c6_amended_detail_invariant :
    ∀ (data : List Nat) (d : Detail), d ∈ (parse_file_core data).raw_extraction_details →
      d.extraction_position = (d.string_position : Int) + d.offset_used
      ∧ ∃ ps, assocGet (extract_strings_and_positions data) d.pattern = some ps
          ∧ d.string_position = ps.headD 0
          ∧ extract_metric_value data ps d.mtype = (some d.value, d.offset_used) := by
  intro data d hd
  exact parseMetrics_detail_inv data (extract_strings_and_positions data) metric_patterns d hd

/-- The single detail record produced by parsing `bufTwo`. -/
def sampleDetail : Detail :=
  ⟨"duration", "duration_us", 500, 10, 16, 26, "microseconds", MType.timing⟩

/-- Witness for the amended C6 at the concrete buffer `bufTwo`. -/
theorem c6_amended_detail_invariant_witness :
    sampleDetail.extraction_position
        = (sampleDetail.string_position : Int) + sampleDetail.offset_used
    ∧ ∃ ps, assocGet (extract_strings_and_positions bufTwo) sampleDetail.pattern = some ps
        ∧ sampleDetail.string_position = ps.headD 0
        ∧ extract_metric_value bufTwo ps sampleDetail.mtype
            = (some sampleDetail.value, sampleDetail.offset_used) :=
  c6_amended_detail_invariant bufTwo sampleDetail (by decide)

/-! ## Claims C8 and C9: derived metrics -/

/-- Rule 1 of `calculate_derived_metrics` in isolation: the
`primary_execution_time_us` entry. -/
def derivedPrimary (metrics : List (String × Nat)) : List (String × DVal) :=
  match primaryOf metrics with
  | some v => [("primary_execution_time_us", DVal.int v)]
  | none => []

/-- Rule 2 of `calculate_derived_metrics` in isolation: throughput and
average time per inference, guarded by positivity of both inputs. -/
def derivedThroughput (metrics : List (String × Nat)) : List (String × DVal) :=
  match primaryOf metrics, assocGet metrics "num_inferences" with
  | some et, some ni =>
    if 0 < et ∧ 0 < ni then
      [("throughput_inferences_per_second", DVal.rat ((1000000 * ni : ℚ) / (et : ℚ))),
       ("avg_time_per_inference_us", DVal.rat ((et : ℚ) / (ni : ℚ)))]
    else []
  | _, _ => []

/-- Rule 4 of `calculate_derived_metrics` in isolation: accelerator
efficiency, guarded by `qnn_execute_time_us > 0`. -/
def derivedEfficiency (metrics : List (String × Nat)) : List (String × DVal) :=
  match assocGet metrics "accelerator_execute_time_us", assocGet metrics "qnn_execute_time_us" with
  | some a, some q =>
    if 0 < q then [("accelerator_efficiency_percent", DVal.rat (((a : ℚ) / (q : ℚ)) * 100))]
    else []
  | _, _ => []

/-- Rule 5 of `calculate_derived_metrics` in isolation: RPC overhead
ratio, guarded by `accelerator_execute_time_us > 0`. -/
def derivedRpc (metrics : List (String × Nat)) : List (String × DVal) :=
  match assocGet metrics "rpc_execute_time_us", assocGet metrics "accelerator_execute_time_us" with
  | some r, some a =>
    if 0 < a then [("rpc_overhead_ratio", DVal.rat ((r : ℚ) / (a : ℚ)))]
    else []
  | _, _ => []

/-- The derived-metric map decomposes into its five rule segments in
insertion order. -/
theorem calculate_decomp (metrics : List (String × Nat)) :
    calculate_derived_metrics metrics
      = derivedPrimary metrics ++ derivedThroughput metrics
        ++ (if (buckets metrics).1 = [] then []
            else [("total_execution_time_us", DVal.int (buckets metrics).1.sum),
                  ("avg_execution_time_us",
                    DVal.rat (((buckets metrics).1.sum : ℚ) / ((buckets metrics).1.length : ℚ)))])
        ++ (if (buckets metrics).2.1 = [] then []
            else [("total_finalize_time_us", DVal.int (buckets metrics).2.1.sum),
                  ("avg_finalize_time_us",
                    DVal.rat (((buckets metrics).2.1.sum : ℚ) / ((buckets metrics).2.1.length : ℚ)))])
        ++ (if (buckets metrics).2.2 = [] then []
            else [("total_deinit_time_us", DVal.int (buckets metrics).2.2.sum),
                  ("avg_deinit_time_us",
                    DVal.rat (((buckets metrics).2.2.sum : ℚ) / ((buckets metrics).2.2.length : ℚ)))])
        ++ derivedEfficiency metrics ++ derivedRpc metrics := rfl

/-- Keys appearing in the primary segment. -/
theorem mem_derivedPrimary (metrics : List (String × Nat)) (k : String) (v : DVal) :
    (k, v) ∈ derivedPrimary metrics → k = "primary_execution_time_us" := by
  unfold derivedPrimary
  cases hp : primaryOf metrics with
  | none => simp
  | some et => simp +contextual

/-- Keys and guards of the throughput segment. -/
theorem mem_derivedThroughput (metrics : List (String × Nat)) (k : String) (v : DVal) :
    (k, v) ∈ derivedThroughput metrics →
      (k = "throughput_inferences_per_second" ∨ k = "avg_time_per_inference_us")
      ∧ ∃ et ni, primaryOf metrics = some et ∧ assocGet metrics "num_inferences" = some ni
          ∧ 0 < et ∧ 0 < ni := by
  unfold derivedThroughput
  cases hp : primaryOf metrics with
  | none => simp
  | some et =>
    cases hn : assocGet metrics "num_inferences" with
    | none => simp
    | some ni =>
      dsimp only
      split
      next h =>
        intro hm
        simp only [List.mem_cons, List.not_mem_nil, or_false, Prod.mk.injEq] at hm
        refine ⟨?_, et, ni, rfl, rfl, h.1, h.2⟩
        rcases hm with ⟨hk, _⟩ | ⟨hk, _⟩
        · exact Or.inl hk
        · exact Or.inr hk
      next h => simp

/-- Keys and guard of a bucket emission segment. -/
theorem mem_bucketSeg (ts : List Nat) (tk ak : String) (x y : DVal) (k : String) (v : DVal) :
    (k, v) ∈ (if ts = [] then ([] : List (String × DVal)) else [(tk, x), (ak, y)]) →
      ts ≠ [] ∧ (k = tk ∨ k = ak) := by
  split
  next h => simp
  next h =>
    intro hm
    simp only [List.mem_cons, List.not_mem_nil, or_false, Prod.mk.injEq] at hm
    refine ⟨h, ?_⟩
    rcases hm with ⟨hk, _⟩ | ⟨hk, _⟩
    · exact Or.inl hk
    · exact Or.inr hk

/-- Keys and guard of the efficiency segment. -/
theorem mem_derivedEfficiency (metrics : List (String × Nat)) (k : String) (v : DVal) :
    (k, v) ∈ derivedEfficiency metrics →
      k = "accelerator_efficiency_percent"
      ∧ ∃ a q, assocGet metrics "accelerator_execute_time_us" = some a
          ∧ assocGet metrics "qnn_execute_time_us" = some q ∧ 0 < q := by
  unfold derivedEfficiency
  cases ha : assocGet metrics "accelerator_execute_time_us" with
  | none => simp
  | some a =>
    cases hq : assocGet metrics "qnn_execute_time_us" with
    | none => simp
    | some q =>
      dsimp only
      split
      next h =>
        intro hm
        simp only [List.mem_cons, List.not_mem_nil, or_false, Prod.mk.injEq] at hm
        exact ⟨hm.1, a, q, rfl, rfl, h⟩
      next h => simp

/-- Keys and guard of the RPC segment. -/
theorem mem_derivedRpc (metrics : List (String × Nat)) (k : String) (v : DVal) :
    (k, v) ∈ derivedRpc metrics →
      k = "rpc_overhead_ratio"
      ∧ ∃ r a, assocGet metrics "rpc_execute_time_us" = some r
          ∧ assocGet metrics "accelerator_execute_time_us" = some a ∧ 0 < a := by
  unfold derivedRpc
  cases hr : assocGet metrics "rpc_execute_time_us" with
  | none => simp
  | some r =>
    cases ha : assocGet metrics "accelerator_execute_time_us" with
    | none => simp
    | some a =>
      dsimp only
      split
      next h =>
        intro hm
        simp only [List.mem_cons, List.not_mem_nil, or_false, Prod.mk.injEq] at hm
        exact ⟨hm.1, r, a, rfl, rfl, h⟩
      next h => simp

/-- Claim C8: the derived-metric calculation is a pure total Lean
function; it returns the empty map when no rule's precondition holds, and
each division-carrying key can only appear under the guard that makes its
divisor positive: throughput and average-time need positive primary time
and inference count, bucket averages need a non-empty bucket, efficiency
needs `qnn_execute_time_us > 0`, and RPC overhead needs
`accelerator_execute_time_us > 0`. -/
theorem c8_derived_total_guarded :
    ∀ metrics : List (String × Nat),
      ((assocGet metrics "qnn_execute_time_us" = none
        ∧ assocGet metrics "accelerator_execute_time_us" = none
        ∧ buckets metrics = ([], [], []))
        → calculate_derived_metrics metrics = [])
      ∧ (∀ v : DVal, ("throughput_inferences_per_second", v) ∈ calculate_derived_metrics metrics →
          ∃ et ni, primaryOf metrics = some et ∧ assocGet metrics "num_inferences" = some ni
            ∧ 0 < et ∧ 0 < ni)
      ∧ (∀ v : DVal, ("avg_time_per_inference_us", v) ∈ calculate_derived_metrics metrics →
          ∃ et ni, primaryOf metrics = some et ∧ assocGet metrics "num_inferences" = some ni
            ∧ 0 < et ∧ 0 < ni)
      ∧ (∀ v : DVal, ("avg_execution_time_us", v) ∈ calculate_derived_metrics metrics →
          (buckets metrics).1 ≠ [])
      ∧ (∀ v : DVal, ("avg_finalize_time_us", v) ∈ calculate_derived_metrics metrics →
          (buckets metrics).2.1 ≠ [])
      ∧ (∀ v : DVal, ("avg_deinit_time_us", v) ∈ calculate_derived_metrics metrics →
          (buckets metrics).2.2 ≠ [])
      ∧ (∀ v : DVal, ("accelerator_efficiency_percent", v) ∈ calculate_derived_metrics metrics →
          ∃ a q, assocGet metrics "accelerator_execute_time_us" = some a
            ∧ assocGet metrics "qnn_execute_time_us" = some q ∧ 0 < q)
      ∧ (∀ v : DVal, ("rpc_overhead_ratio", v) ∈ calculate_derived_metrics metrics →
          ∃ r a, assocGet metrics "rpc_execute_time_us" = some r
            ∧ assocGet metrics "accelerator_execute_time_us" = some a ∧ 0 < a) := by
  intro metrics
  have hmem : ∀ (k : String) (v : DVal), (k, v) ∈ calculate_derived_metrics metrics →
      (k, v) ∈ derivedPrimary metrics ∨ (k, v) ∈ derivedThroughput metrics
      ∨ ((buckets metrics).1 ≠ [] ∧ (k = "total_execution_time_us" ∨ k = "avg_execution_time_us"))
      ∨ ((buckets metrics).2.1 ≠ [] ∧ (k = "total_finalize_time_us" ∨ k = "avg_finalize_time_us"))
      ∨ ((buckets metrics).2.2 ≠ [] ∧ (k = "total_deinit_time_us" ∨ k = "avg_deinit_time_us"))
      ∨ (k, v) ∈ derivedEfficiency metrics ∨ (k, v) ∈ derivedRpc metrics := by
    intro k v h
    rw [calculate_decomp] at h
    simp only [List.mem_append] at h
    rcases h with ((((((h | h) | h) | h) | h) | h) | h)
    · exact Or.inl h
    · exact Or.inr (Or.inl h)
    · exact Or.inr (Or.inr (Or.inl (mem_bucketSeg _ _ _ _ _ _ _ h)))
    · exact Or.inr (Or.inr (Or.inr (Or.inl (mem_bucketSeg _ _ _ _ _ _ _ h))))
    · exact Or.inr (Or.inr (Or.inr (Or.inr (Or.inl (mem_bucketSeg _ _ _ _ _ _ _ h)))))
    · exact Or.inr (Or.inr (Or.inr (Or.inr (Or.inr (Or.inl h)))))
    · exact Or.inr (Or.inr (Or.inr (Or.inr (Or.inr (Or.inr h)))))
  refine ⟨?_, ?_, ?_, ?_, ?_, ?_, ?_, ?_⟩
  · rintro ⟨h1, h2, h3⟩
    have hp : primaryOf metrics = none := by simp [primaryOf, h1, h2]
    rw [calculate_decomp]
    cases hr : assocGet metrics "rpc_execute_time_us" with
    | none =>
      simp [derivedPrimary, derivedThroughput, derivedEfficiency, derivedRpc, hp, h1, h2, h3, hr]
    | some r =>
      simp [derivedPrimary, derivedThroughput, derivedEfficiency, derivedRpc, hp, h1, h2, h3, hr]
  · intro v h
    rcases hmem _ _ h with h | h | h | h | h | h | h
    · exact absurd (mem_derivedPrimary _ _ _ h) (by decide)
    · exact (mem_derivedThroughput _ _ _ h).2
    · rcases h.2 with hk | hk <;> exact absurd hk (by decide)
    · rcases h.2 with hk | hk <;> exact absurd hk (by decide)
    · rcases h.2 with hk | hk <;> exact absurd hk (by decide)
    · exact absurd (mem_derivedEfficiency _ _ _ h).1 (by decide)
    · exact absurd (mem_derivedRpc _ _ _ h).1 (by decide)
  · intro v h
    rcases hmem _ _ h with h | h | h | h | h | h | h
    · exact absurd (mem_derivedPrimary _ _ _ h) (by decide)
    · exact (mem_derivedThroughput _ _ _ h).2
    · rcases h.2 with hk | hk <;> exact absurd hk (by decide)
    · rcases h.2 with hk | hk <;> exact absurd hk (by decide)
    · rcases h.2 with hk | hk <;> exact absurd hk (by decide)
    · exact absurd (mem_derivedEfficiency _ _ _ h).1 (by decide)
    · exact absurd (mem_derivedRpc _ _ _ h).1 (by decide)
  · intro v h
    rcases hmem _ _ h with h | h | h | h | h | h | h
    · exact absurd (mem_derivedPrimary _ _ _ h) (by decide)
    · rcases (mem_derivedThroughput _ _ _ h).1 with hk | hk <;> exact absurd hk (by decide)
    · exact h.1
    · rcases h.2 with hk | hk <;> exact absurd hk (by decide)
    · rcases h.2 with hk | hk <;> exact absurd hk (by decide)
    · exact absurd (mem_derivedEfficiency _ _ _ h).1 (by decide)
    · exact absurd (mem_derivedRpc _ _ _ h).1 (by decide)
  · intro v h
    rcases hmem _ _ h with h | h | h | h | h | h | h
    · exact absurd (mem_derivedPrimary _ _ _ h) (by decide)
    · rcases (mem_derivedThroughput _ _ _ h).1 with hk | hk <;> exact absurd hk (by decide)
    · rcases h.2 with hk | hk <;> exact absurd hk (by decide)
    · exact h.1
    · rcases h.2 with hk | hk <;> exact absurd hk (by decide)
    · exact absurd (mem_derivedEfficiency _ _ _ h).1 (by decide)
    · exact absurd (mem_derivedRpc _ _ _ h).1 (by decide)
  · intro v h
    rcases hmem _ _ h with h | h | h | h | h | h | h
    · exact absurd (mem_derivedPrimary _ _ _ h) (by decide)
    · rcases (mem_derivedThroughput _ _ _ h).1 with hk | hk <;> exact absurd hk (by decide)
    · rcases h.2 with hk | hk <;> exact absurd hk (by decide)
    · rcases h.2 with hk | hk <;> exact absurd hk (by decide)
    · exact h.1
    · exact absurd (mem_derivedEfficiency _ _ _ h).1 (by decide)
    · exact absurd (mem_derivedRpc _ _ _ h).1 (by decide)
  · intro v h
    rcases hmem _ _ h with h | h | h | h | h | h | h
    · exact absurd (mem_derivedPrimary _ _ _ h) (by decide)
    · rcases (mem_derivedThroughput _ _ _ h).1 with hk | hk <;> exact absurd hk (by decide)
    · rcases h.2 with hk | hk <;> exact absurd hk (by decide)
    · rcases h.2 with hk | hk <;> exact absurd hk (by decide)
    · rcases h.2 with hk | hk <;> exact absurd hk (by decide)
    · exact (mem_derivedEfficiency _ _ _ h).2
    · exact absurd (mem_derivedRpc _ _ _ h).1 (by decide)
  · intro v h
    rcases hmem _ _ h with h | h | h | h | h | h | h
    · exact absurd (mem_derivedPrimary _ _ _ h) (by decide)
    · rcases (mem_derivedThroughput _ _ _ h).1 with hk | hk <;> exact absurd hk (by decide)
    · rcases h.2 with hk | hk <;> exact absurd hk (by decide)
    · rcases h.2 with hk | hk <;> exact absurd hk (by decide)
    · rcases h.2 with hk | hk <;> exact absurd hk (by decide)
    · exact absurd (mem_derivedEfficiency _ _ _ h).1 (by decide)
    · exact (mem_derivedRpc _ _ _ h).2

/-- Witness for C8 at concrete inputs: the empty map derives to the empty
map, and the throughput entry of a populated map has its guard met. -/
theorem c8_derived_total_guarded_witness :
    calculate_derived_metrics [] = []
    ∧ ∃ et ni, primaryOf [("qnn_execute_time_us", 2000), ("num_inferences", 10)] = some et
        ∧ assocGet [("qnn_execute_time_us", 2000), ("num_inferences", 10)] "num_inferences"
            = some ni
        ∧ 0 < et ∧ 0 < ni :=
  ⟨(c8_derived_total_guarded []).1 ⟨by decide, by decide, by decide⟩,
   (c8_derived_total_guarded [("qnn_execute_time_us", 2000), ("num_inferences", 10)]).2.1
     (DVal.rat ((1000000 * ((10 : Nat) : ℚ)) / ((2000 : Nat) : ℚ)))
     (by rw [calculate_decomp]
         refine List.mem_append_left _ (List.mem_append_left _ (List.mem_append_left _
           (List.mem_append_left _ (List.mem_append_left _ (List.mem_append_right _ ?_)))))
         show _ ∈ derivedThroughput _
         simp [derivedThroughput, primaryOf, assocGet])⟩

/-- Suffix test on strings (used only to state the specification's
"ends with `time_us`" wording; the code itself tests substring
containment). -/
def strEndsWith (s pat : String) : Bool :=
  leadsChars pat.data.reverse s.data.reverse

/-- Modelled from the spec: the execution-bucket keys as the
specification words them — keys that contain `execute` AND END WITH
`time_us`. -/
def specExecBucketKeys (metrics : List (String × Nat)) : List String :=
  (metrics.filter (fun kv => strContains kv.1 "execute" && strEndsWith kv.1 "time_us")).map
    (fun kv => kv.1)

/-- Claim C9 counterexample: the key `execute_time_usx` does not end with
`time_us`, so the claim's execution bucket is empty at this input, yet
the code emits `total_execution_time_us = 5` for it (the code tests
substring containment, not suffix); and a key satisfying the claim's
finalize condition (`execute_finalize_time_us` contains `finalize` and
ends with `time_us`) produces NO finalize emission, because the `elif`
chain claims it for the execution bucket first. -/
theorem c9_counterexample :
    specExecBucketKeys [("execute_time_usx", 5)] = []
    ∧ assocGet (calculate_derived_metrics [("execute_time_usx", 5)]) "total_execution_time_us"
        = some (DVal.int 5)
    ∧ strContains "execute_finalize_time_us" "finalize" = true
    ∧ strEndsWith "execute_finalize_time_us" "time_us" = true
    ∧ assocGet (calculate_derived_metrics [("execute_finalize_time_us", 7)])
        "total_finalize_time_us" = none := by
  refine ⟨by decide, by decide, by decide, by decide, by decide⟩

/-- The execution-bucket test of the bucketing loop: the key contains
`execute` and contains `time_us` (substring tests, as in the code). -/
def isExecKey (k : String) : Bool :=
  strContains k "execute" && strContains k "time_us"

/-- The finalize-bucket test of the bucketing loop. -/
def isFinKey (k : String) : Bool :=
  strContains k "finalize" && strContains k "time_us"

/-- The deinit-bucket test of the bucketing loop. -/
def isDeinitKey (k : String) : Bool :=
  strContains k "deinit" && strContains k "time_us"

/-- Claim C9 (amended): a key is placed in the execution bucket iff it
CONTAINS `execute` and CONTAINS `time_us` (substring, not suffix,
tests); otherwise in the finalize bucket iff it contains `finalize` and
`time_us`; otherwise in the deinit bucket iff it contains `deinit` and
`time_us` (the three tests form an if/elif chain, in bucket order); and
for each non-empty bucket the output contains, in place, the segment
`total_<bucket>_time_us` = sum and `avg_<bucket>_time_us` = arithmetic
mean of the bucket's values. -/
theorem c9_amended_bucketing :
    ∀ metrics : List (String × Nat),
      ((buckets metrics).1
          = (metrics.filter (fun kv => isExecKey kv.1)).map (fun kv => kv.2))
      ∧ ((buckets metrics).2.1
          = (metrics.filter (fun kv => !isExecKey kv.1 && isFinKey kv.1)).map (fun kv => kv.2))
      ∧ ((buckets metrics).2.2
          = (metrics.filter
              (fun kv => !isExecKey kv.1 && !isFinKey kv.1 && isDeinitKey kv.1)).map
              (fun kv => kv.2))
      ∧ calculate_derived_metrics metrics
          = derivedPrimary metrics ++ derivedThroughput metrics
            ++ (if (buckets metrics).1 = [] then []
                else [("total_execution_time_us", DVal.int (buckets metrics).1.sum),
                      ("avg_execution_time_us",
                        DVal.rat (((buckets metrics).1.sum : ℚ) / ((buckets metrics).1.length : ℚ)))])
            ++ (if (buckets metrics).2.1 = [] then []
                else [("total_finalize_time_us", DVal.int (buckets metrics).2.1.sum),
                      ("avg_finalize_time_us",
                        DVal.rat (((buckets metrics).2.1.sum : ℚ) / ((buckets metrics).2.1.length : ℚ)))])
            ++ (if (buckets metrics).2.2 = [] then []
                else [("total_deinit_time_us", DVal.int (buckets metrics).2.2.sum),
                      ("avg_deinit_time_us",
                        DVal.rat (((buckets metrics).2.2.sum : ℚ) / ((buckets metrics).2.2.length : ℚ)))])
            ++ derivedEfficiency metrics ++ derivedRpc metrics := by
  have hfil : ∀ metrics : List (String × Nat),
      ((buckets metrics).1
          = (metrics.filter (fun kv => isExecKey kv.1)).map (fun kv => kv.2))
      ∧ ((buckets metrics).2.1
          = (metrics.filter (fun kv => !isExecKey kv.1 && isFinKey kv.1)).map (fun kv => kv.2))
      ∧ ((buckets metrics).2.2
          = (metrics.filter
              (fun kv => !isExecKey kv.1 && !isFinKey kv.1 && isDeinitKey kv.1)).map
              (fun kv => kv.2)) := by
    intro metrics
    induction metrics with
    | nil => exact ⟨rfl, rfl, rfl⟩
    | cons kv rest ih =>
      obtain ⟨k, v⟩ := kv
      obtain ⟨ih1, ih2, ih3⟩ := ih
      have hb : buckets ((k, v) :: rest)
          = (if isExecKey k then
               (v :: (buckets rest).1, (buckets rest).2.1, (buckets rest).2.2)
             else if isFinKey k then
               ((buckets rest).1, v :: (buckets rest).2.1, (buckets rest).2.2)
             else if isDeinitKey k then
               ((buckets rest).1, (buckets rest).2.1, v :: (buckets rest).2.2)
             else buckets rest) := rfl
      cases hE : isExecKey k with
      | true => simp [hb, hE, List.filter_cons, ih1, ih2, ih3]
      | false =>
        cases hF : isFinKey k with
        | true => simp [hb, hE, hF, List.filter_cons, ih1, ih2, ih3]
        | false =>
          cases hD : isDeinitKey k with
          | true => simp [hb, hE, hF, hD, List.filter_cons, ih1, ih2, ih3]
          | false => simp [hb, hE, hF, hD, List.filter_cons, ih1, ih2, ih3]
  intro metrics
  exact ⟨(hfil metrics).1, (hfil metrics).2.1, (hfil metrics).2.2, calculate_decomp metrics⟩

/-! ## Claim C4: the label scanner -/

/-- Character-code round trip for printable bytes. -/
theorem toNat_charOfNat (b : Nat) (h1 : 32 ≤ b) (h2 : b ≤ 126) : (Char.ofNat b).toNat = b := by
  have hv : b.isValidChar := Or.inl (by omega)
  rw [Char.ofNat, dif_pos hv]
  rfl

/-- Pushing a character appends it to the underlying data. -/
theorem data_push (s : String) (c : Char) : (s.push c).data = s.data ++ [c] := by
  cases s
  rfl

/-- String length is the length of the underlying data. -/
theorem length_data (s : String) : s.length = s.data.length := by
  cases s
  rfl

/-- A push is never the empty string. -/
theorem push_ne_empty (s : String) (c : Char) : s.push c ≠ "" := by
  intro h
  have hd : (s.push c).data = [] := by rw [h]
  rw [data_push] at hd
  simp at hd

/-- Pushing a character increments the length. -/
theorem push_length (s : String) (c : Char) : (s.push c).length = s.length + 1 := by
  rw [length_data, data_push, List.length_append, length_data]
  rfl

/-- Decoding a byte list into the string the scanner accumulates for it. -/
def strOfBytes (bs : List Nat) : String :=
  String.mk (bs.map Char.ofNat)

/-- The scanner's per-entry invariant: the label has length at least 3,
all its characters are printable ASCII, every recorded offset is a valid
start index where the label's character codes occur verbatim as bytes,
and the offsets are strictly ascending. -/
def GoodEntry (data : List Nat) (e : String × List Nat) : Prop :=
  3 ≤ e.1.length
  ∧ (∀ c ∈ e.1.data, 32 ≤ c.toNat ∧ c.toNat ≤ 126)
  ∧ (∀ p ∈ e.2, p + e.1.length ≤ data.length
      ∧ (data.drop p).take e.1.length = e.1.data.map Char.toNat)
  ∧ e.2.Pairwise (fun a b => a < b)

/-- Upper bound below which every already-recorded occurrence (plus its
minimal length 3) must lie: the current index when no run is open, else
the open run's start. -/
def bndOf (st : ScanState) (i : Nat) : Nat :=
  if st.cur = "" then i else st.start

/-- The scanning-loop invariant at index `i`. -/
def Inv (data : List Nat) (i : Nat) (st : ScanState) : Prop :=
  (∀ e ∈ st.acc, GoodEntry data e)
  ∧ (∀ e ∈ st.acc, ∀ p ∈ e.2, p + 3 ≤ bndOf st i)
  ∧ (st.cur ≠ "" →
      st.start + st.cur.length = i
      ∧ (data.drop st.start).take st.cur.length = st.cur.data.map Char.toNat
      ∧ (∀ c ∈ st.cur.data, 32 ≤ c.toNat ∧ c.toNat ≤ 126))

/-- Entries of the map after adding an occurrence: an untouched old
entry, the old entry for the same label extended at the end, or a fresh
singleton entry. -/
theorem mem_addOccurrence (m : List (String × List Nat)) (s : String) (p : Nat) :
    ∀ e ∈ addOccurrence m s p,
      e ∈ m ∨ (∃ ps, (s, ps) ∈ m ∧ e = (s, ps ++ [p])) ∨ e = (s, [p]) := by
  induction m with
  | nil =>
    intro e he
    simp only [addOccurrence, List.mem_singleton] at he
    exact Or.inr (Or.inr he)
  | cons kv m ih =>
    obtain ⟨k, ps⟩ := kv
    intro e he
    by_cases hk : k = s
    · subst hk
      rw [addOccurrence, if_pos rfl] at he
      rcases List.mem_cons.mp he with he | he
      · exact Or.inr (Or.inl ⟨ps, List.mem_cons_self _ _, he⟩)
      · exact Or.inl (List.mem_cons_of_mem _ he)
    · rw [addOccurrence, if_neg hk] at he
      rcases List.mem_cons.mp he with he | he
      · subst he
        exact Or.inl (List.mem_cons_self _ _)
      · rcases ih e he with h | ⟨ps2, hmem, he2⟩ | h
        · exact Or.inl (List.mem_cons_of_mem _ h)
        · exact Or.inr (Or.inl ⟨ps2, List.mem_cons_of_mem _ hmem, he2⟩)
        · exact Or.inr (Or.inr h)

/-- After adding an occurrence for `s`, some entry for `s` contains it. -/
theorem addOccurrence_self (m : List (String × List Nat)) (s : String) (p : Nat) :
    ∃ ps, (s, ps) ∈ addOccurrence m s p ∧ p ∈ ps := by
  induction m with
  | nil => exact ⟨[p], by simp [addOccurrence], by simp⟩
  | cons kv m ih =>
    obtain ⟨k, ps⟩ := kv
    by_cases hk : k = s
    · subst hk
      exact ⟨ps ++ [p], by rw [addOccurrence, if_pos rfl]; exact List.mem_cons_self _ _, by simp⟩
    · obtain ⟨ps2, h1, h2⟩ := ih
      exact ⟨ps2, by rw [addOccurrence, if_neg hk]; exact List.mem_cons_of_mem _ h1, h2⟩

/-- Flushing preserves the entry invariant and bounds every recorded
occurrence by the flush index. -/
theorem flushRun_inv (data : List Nat) (i : Nat) (st : ScanState)
    (h : Inv data i st) (hile : i ≤ data.length) :
    (∀ e ∈ flushRun st, GoodEntry data e)
    ∧ (∀ e ∈ flushRun st, ∀ p ∈ e.2, p + 3 ≤ i) := by
  obtain ⟨hg, hbnd, hcur⟩ := h
  unfold flushRun
  split
  next hlen =>
    have hne : st.cur ≠ "" := by
      intro h0
      rw [h0] at hlen
      simp at hlen
    obtain ⟨hsi, hslice, hchars⟩ := hcur hne
    have hbnd2 : ∀ e ∈ st.acc, ∀ p ∈ e.2, p + 3 ≤ st.start := by
      intro e he p hp
      have hb := hbnd e he p hp
      rwa [bndOf, if_neg hne] at hb
    have hstart3 : st.start + 3 ≤ i := by omega
    constructor
    · intro e he
      rcases mem_addOccurrence _ _ _ e he with hm | ⟨ps, hmem, he2⟩ | he2
      · exact hg e hm
      · subst he2
        obtain ⟨hl3, hchars0, hocc, hpw⟩ := hg _ hmem
        refine ⟨hl3, hchars0, ?_, ?_⟩
        · intro p hp
          rcases List.mem_append.mp hp with hp | hp
          · exact hocc p hp
          · rw [List.mem_singleton] at hp
            subst hp
            exact ⟨by dsimp only; omega, hslice⟩
        · rw [List.pairwise_append]
          refine ⟨hpw, List.pairwise_singleton _ _, ?_⟩
          intro a ha c hc
          rw [List.mem_singleton] at hc
          subst hc
          have := hbnd2 _ hmem a ha
          omega
      · subst he2
        refine ⟨hlen, hchars, ?_, ?_⟩
        · intro p hp
          rw [List.mem_singleton] at hp
          subst hp
          exact ⟨by dsimp only; omega, hslice⟩
        · exact List.pairwise_singleton _ _
    · intro e he p hp
      rcases mem_addOccurrence _ _ _ e he with hm | ⟨ps, hmem, he2⟩ | he2
      · have := hbnd2 e hm p hp
        omega
      · subst he2
        simp only [List.mem_append, List.mem_singleton] at hp
        rcases hp with hp | hp
        · have := hbnd2 _ hmem p hp
          omega
        · subst hp
          omega
      · subst he2
        rw [List.mem_singleton] at hp
        subst hp
        omega
  next hlen =>
    refine ⟨hg, ?_⟩
    intro e he p hp
    have hb := hbnd e he p hp
    by_cases hc : st.cur = ""
    · rwa [bndOf, if_pos hc] at hb
    · rw [bndOf, if_neg hc] at hb
      obtain ⟨hsi, _, _⟩ := hcur hc
      omega

/-- One scanning step preserves the loop invariant. -/
theorem scanStep_inv (data : List Nat) (i b : Nat) (rest : List Nat) (st : ScanState)
    (hdrop : data.drop i = b :: rest) (hinv : Inv data i st) :
    Inv data (i + 1) (scanStep i b st) := by
  obtain ⟨hg, hbnd, hcur⟩ := hinv
  have hilt : i < data.length := by
    by_contra hh
    push_neg at hh
    rw [List.drop_eq_nil_of_le hh] at hdrop
    simp at hdrop
  unfold scanStep
  split
  next hpb =>
    by_cases hc : st.cur = ""
    · rw [if_pos hc]
      refine ⟨hg, ?_, ?_⟩
      · intro e he p hp
        have hb := hbnd e he p hp
        rw [bndOf, if_pos hc] at hb
        rw [bndOf]
        rw [if_neg (push_ne_empty _ _)]
        exact hb
      · intro _
        rw [hc]
        have h0len : ("" : String).length = 0 := rfl
        refine ⟨?_, ?_, ?_⟩
        · rw [push_length, h0len]
        · rw [push_length, h0len, hdrop, data_push]
          simp [toNat_charOfNat b hpb.1 hpb.2]
        · intro c hcm
          rw [data_push] at hcm
          simp only [List.nil_append, List.mem_singleton] at hcm
          subst hcm
          rw [toNat_charOfNat b hpb.1 hpb.2]
          exact hpb
    · rw [if_neg hc]
      obtain ⟨hsi, hslice, hchars⟩ := hcur hc
      refine ⟨hg, ?_, ?_⟩
      · intro e he p hp
        have hb := hbnd e he p hp
        rw [bndOf, if_neg hc] at hb
        rw [bndOf, if_neg (push_ne_empty _ _)]
        exact hb
      · intro _
        dsimp only
        refine ⟨?_, ?_, ?_⟩
        · rw [push_length]
          omega
        · have hdd : (data.drop st.start).drop st.cur.length = b :: rest := by
            rw [List.drop_drop]
            rw [hsi]
            exact hdrop
          rw [push_length, take_succ_eq _ _ _ _ hdd, hslice, data_push, List.map_append]
          simp [toNat_charOfNat b hpb.1 hpb.2]
        · intro c hcm
          rw [data_push] at hcm
          rcases List.mem_append.mp hcm with hcm | hcm
          · exact hchars c hcm
          · rw [List.mem_singleton] at hcm
            subst hcm
            rw [toNat_charOfNat b hpb.1 hpb.2]
            exact hpb
  next hpb =>
    have hflush := flushRun_inv data i st ⟨hg, hbnd, hcur⟩ (Nat.le_of_lt hilt)
    refine ⟨hflush.1, ?_, ?_⟩
    · intro e he p hp
      have := hflush.2 e he p hp
      rw [bndOf, if_pos rfl]
      omega
    · intro hne
      exact absurd rfl hne

/-- The scanning loop preserves the invariant over any remaining input. -/
theorem scanGo_inv (data : List Nat) :
    ∀ (l : List Nat) (i : Nat) (st : ScanState),
      data.drop i = l → Inv data i st → Inv data (i + l.length) (scanGo l i st) := by
  intro l
  induction l with
  | nil =>
    intro i st _ h
    simpa [scanGo] using h
  | cons b rest ih =>
    intro i st hdrop hinv
    have hdrop2 : data.drop (i + 1) = rest := by
      rw [← List.drop_drop 1 i data, hdrop]
      rfl
    have h1 : Inv data (i + 1) (scanStep i b st) := scanStep_inv data i b rest st hdrop hinv
    have h2 := ih (i + 1) (scanStep i b st) hdrop2 h1
    rw [scanGo]
    have hlen : i + (b :: rest).length = (i + 1) + rest.length := by
      simp only [List.length_cons]
      omega
    rw [hlen]
    exact h2

/-- Every entry of the scanner's output satisfies the entry invariant. -/
theorem extract_strings_good (data : List Nat) :
    ∀ e ∈ extract_strings_and_positions data, GoodEntry data e := by
  have h0 : Inv data 0 ⟨[], "", 0⟩ := by
    refine ⟨by simp, by simp, ?_⟩
    intro h
    exact absurd rfl h
  have h1 := scanGo_inv data data 0 ⟨[], "", 0⟩ (by simp) h0
  intro e he
  exact (flushRun_inv data (0 + data.length) _ h1 (by omega)).1 e he

/-- The scanning loop distributes over append. -/
theorem scanGo_append (l1 l2 : List Nat) : ∀ (i : Nat) (st : ScanState),
    scanGo (l1 ++ l2) i st = scanGo l2 (i + l1.length) (scanGo l1 i st) := by
  induction l1 with
  | nil =>
    intro i st
    simp [scanGo]
  | cons b rest ih =>
    intro i st
    have h : i + (b :: rest).length = (i + 1) + rest.length := by
      rw [List.length_cons]
      omega
    rw [h]
    exact ih (i + 1) (scanStep i b st)

/-- Scanning a printable run with an open accumulator appends the decoded
characters, leaving map and start untouched. -/
theorem scanGo_printable_ne (run : List Nat) :
    ∀ (i : Nat) (m : List (String × List Nat)) (cur : String) (s : Nat),
      (∀ x ∈ run, 32 ≤ x ∧ x ≤ 126) → cur ≠ "" →
      scanGo run i ⟨m, cur, s⟩ = ⟨m, String.mk (cur.data ++ run.map Char.ofNat), s⟩ := by
  induction run with
  | nil =>
    intro i m cur s _ _
    cases cur
    simp [scanGo]
  | cons x xs ih =>
    intro i m cur s hrun hne
    have hx := hrun x (List.mem_cons_self _ _)
    rw [scanGo, scanStep, if_pos hx, if_neg hne]
    rw [ih (i + 1) m _ s (fun y hy => hrun y (List.mem_cons_of_mem _ hy)) (push_ne_empty _ _)]
    rw [data_push]
    simp [List.append_assoc]

/-- Scanning a non-empty printable run with an empty accumulator opens a
run at the current index and decodes it fully. -/
theorem scanGo_printable_empty (run : List Nat) (i : Nat) (m : List (String × List Nat)) (s : Nat)
    (hrun : ∀ x ∈ run, 32 ≤ x ∧ x ≤ 126) (hne : run ≠ []) :
    scanGo run i ⟨m, "", s⟩ = ⟨m, strOfBytes run, i⟩ := by
  cases run with
  | nil => exact absurd rfl hne
  | cons x xs =>
    have hx := hrun x (List.mem_cons_self _ _)
    rw [scanGo, scanStep, if_pos hx, if_pos rfl]
    rw [scanGo_printable_ne xs (i + 1) m _ i
      (fun y hy => hrun y (List.mem_cons_of_mem _ hy)) (push_ne_empty _ _)]
    rw [data_push]
    rfl

/-- Claim C4: for every byte buffer, every key of the scanned map is a
printable-ASCII string of length at least 3, every recorded offset is a
valid start index at which the label's character codes occur verbatim in
the buffer, each label's offset list is strictly ascending, and a
printable run of length at least 3 that ends exactly at the end of the
buffer is flushed and included (both when it is the whole buffer and when
a non-printable byte precedes it). -/
theorem c4_scanner_sound :
    (∀ (data : List Nat) (e : String × List Nat), e ∈ extract_strings_and_positions data →
      3 ≤ e.1.length
      ∧ (∀ c ∈ e.1.data, 32 ≤ c.toNat ∧ c.toNat ≤ 126)
      ∧ (∀ p ∈ e.2, p + e.1.length ≤ data.length
          ∧ (data.drop p).take e.1.length = e.1.data.map Char.toNat)
      ∧ e.2.Pairwise (fun a b => a < b))
    ∧ (∀ run : List Nat, (∀ x ∈ run, 32 ≤ x ∧ x ≤ 126) → 3 ≤ run.length →
        ∃ ps, (strOfBytes run, ps) ∈ extract_strings_and_positions run ∧ 0 ∈ ps)
    ∧ (∀ (pre run : List Nat) (b : Nat), ¬(32 ≤ b ∧ b ≤ 126) →
        (∀ x ∈ run, 32 ≤ x ∧ x ≤ 126) → 3 ≤ run.length →
        ∃ ps, (strOfBytes run, ps) ∈ extract_strings_and_positions (pre ++ b :: run)
          ∧ (pre.length + 1) ∈ ps) := by
  refine ⟨?_, ?_, ?_⟩
  · intro data e he
    exact extract_strings_good data e he
  · intro run hrun hlen
    have hne : run ≠ [] := by
      intro h0
      rw [h0] at hlen
      simp at hlen
    unfold extract_strings_and_positions
    rw [scanGo_printable_empty run 0 [] 0 hrun hne]
    rw [flushRun, if_pos ?hl]
    case hl =>
      show 3 ≤ (strOfBytes run).length
      have : (strOfBytes run).length = run.length := by
        rw [length_data]
        simp [strOfBytes]
      omega
    exact addOccurrence_self [] (strOfBytes run) 0
  · intro pre run b hb hrun hlen
    have hne : run ≠ [] := by
      intro h0
      rw [h0] at hlen
      simp at hlen
    unfold extract_strings_and_positions
    rw [scanGo_append pre (b :: run) 0]
    rw [scanGo, scanStep, if_neg hb]
    rw [scanGo_printable_empty run (0 + pre.length + 1) _ _ hrun hne]
    rw [flushRun]
    rw [if_pos ?hl2]
    case hl2 =>
      show 3 ≤ (strOfBytes run).length
      have : (strOfBytes run).length = run.length := by
        rw [length_data]
        simp [strOfBytes]
      omega
    have := addOccurrence_self
      (flushRun (scanGo pre 0 ⟨[], "", 0⟩)) (strOfBytes run) (0 + pre.length + 1)
    simpa using this

/-- Witness for C4 at concrete inputs: the buffer `FFF` (bytes 70 70 70)
yields the entry `("FFF", [0])` satisfying all the invariants, and a run
after a non-printable byte is flushed with its offset. -/
theorem c4_scanner_sound_witness :
    (3 ≤ ("FFF" : String).length
      ∧ (∀ c ∈ ("FFF" : String).data, 32 ≤ c.toNat ∧ c.toNat ≤ 126)
      ∧ (∀ p ∈ [0], p + ("FFF" : String).length ≤ ([70, 70, 70] : List Nat).length
          ∧ (([70, 70, 70] : List Nat).drop p).take ("FFF" : String).length
              = ("FFF" : String).data.map Char.toNat)
      ∧ ([0] : List Nat).Pairwise (fun a b => a < b))
    ∧ ∃ ps, (strOfBytes [70, 70, 70], ps)
          ∈ extract_strings_and_positions ([] ++ 0 :: [70, 70, 70])
        ∧ (List.length ([] : List Nat) + 1) ∈ ps :=
  ⟨c4_scanner_sound.1 [70, 70, 70] ("FFF", [0]) (by decide),
   c4_scanner_sound.2.2 [] [70, 70, 70] 0 (by decide) (by decide) (by decide)⟩

end QNNLogParser
